import Mathlib

/-
Verification of the BEAR offline-RL agent (src/algos/offline/bear.py) against
its natural-language specification.  The Python training code is shallowly
embedded: tensors become lists of reals, the stochastic policy and critic
networks become explicit function parameters, and mutation becomes explicit
state passing.
-/

/-! ## Shared list helpers -/

/-- Mean of a list of reals, `tensor.mean()`. -/
noncomputable def listMean (l : List ℝ) : ℝ := l.sum / l.length

/-- Maximum of a list of reals, `tensor.max(dim)[0]` on a nonempty slice.
The `[]` case is never reached by the guarded callers below. -/
noncomputable def listMax : List ℝ → ℝ
  | [] => 0
  | [x] => x
  | x :: y :: ys => max x (listMax (y :: ys))

theorem le_listMax {l : List ℝ} {x : ℝ} (hx : x ∈ l) : x ≤ listMax l := by
  induction l with
  | nil => cases hx
  | cons a t ih =>
    cases t with
    | nil => simp at hx; simp [listMax, hx]
    | cons b u =>
      rcases List.mem_cons.mp hx with h | h
      · simp [listMax, h, le_max_left]
      · exact le_trans (ih h) (by simp [listMax, le_max_right])

/-! ## Kernel similarity estimator (`mmd_loss_gaussian`, `mmd_loss_laplacian`)

`samples : List (List (List ℝ))` is a tensor of shape B x N x d.
`diff = samples1.unsqueeze(2) - samples2.unsqueeze(1)` followed by
`(-(reduce diff).sum(-1)/(2*sigma)).exp()` evaluates, at pair `(i, j)` of
batch item `b`, a kernel term on the two sample vectors; the `mean(dim=(1,2))`
averages those terms over the N x N pairs. -/

/-- Componentwise difference of two sample vectors (one slice of the
broadcast subtraction `samples1.unsqueeze(2) - samples2.unsqueeze(1)`). -/
def vecSub (x y : List ℝ) : List ℝ := (x.zip y).map fun p => p.1 - p.2

/-- `(diff.pow(2)).sum(-1)` on one pair of sample vectors. -/
def sumSq (v : List ℝ) : ℝ := (v.map fun t => t ^ 2).sum

/-- `(diff.abs()).sum(-1)` on one pair of sample vectors. -/
def sumAbs (v : List ℝ) : ℝ := (v.map fun t => |t|).sum

/-- Pairwise Gaussian kernel term of `mmd_loss_gaussian`:
`(-(diff.pow(2)).sum(-1)/(2.0 * sigma)).exp()`. -/
noncomputable def gaussKernelTerm (sigma : ℝ) (x y : List ℝ) : ℝ :=
  Real.exp (-(sumSq (vecSub x y)) / (2 * sigma))

/-- Pairwise Laplacian kernel term of `mmd_loss_laplacian`:
`(-(diff.abs()).sum(-1)/(2.0 * sigma)).exp()`. -/
noncomputable def laplKernelTerm (sigma : ℝ) (x y : List ℝ) : ℝ :=
  Real.exp (-(sumAbs (vecSub x y)) / (2 * sigma))

/-- `torch.mean(K, dim=(1, 2))` of the N x N kernel-term matrix of one batch
item: sum of all pairwise terms divided by the number of pairs. -/
noncomputable def pairMean (k : List ℝ → List ℝ → ℝ) (s t : List (List ℝ)) : ℝ :=
  ((s.map fun x => (t.map fun y => k x y).sum).sum) / (s.length * t.length)

/-- `BEAR_Agent.mmd_loss_gaussian`: per batch item,
`(diff_x_x + diff_y_y - 2.0 * diff_x_y + 1e-6).sqrt()`. -/
noncomputable def mmd_loss_gaussian (samples1 samples2 : List (List (List ℝ)))
    (sigma : ℝ) : List ℝ :=
  (samples1.zip samples2).map fun p =>
    Real.sqrt (pairMean (gaussKernelTerm sigma) p.1 p.1
      + pairMean (gaussKernelTerm sigma) p.2 p.2
      - 2 * pairMean (gaussKernelTerm sigma) p.1 p.2 + 1e-6)

/-- `BEAR_Agent.mmd_loss_laplacian`: per batch item,
`(diff_x_x + diff_y_y - 2.0 * diff_x_y + 1e-6).sqrt()`. -/
noncomputable def mmd_loss_laplacian (samples1 samples2 : List (List (List ℝ)))
    (sigma : ℝ) : List ℝ :=
  (samples1.zip samples2).map fun p =>
    Real.sqrt (pairMean (laplKernelTerm sigma) p.1 p.1
      + pairMean (laplKernelTerm sigma) p.2 p.2
      - 2 * pairMean (laplKernelTerm sigma) p.1 p.2 + 1e-6)

/-- Squared Euclidean distance of two sample vectors, written from the spec
words (sum over coordinates of squared differences). -/
noncomputable def sqEuclidDist (x y : List ℝ) : ℝ :=
  (Finset.range (min x.length y.length)).sum fun i => (x.getD i 0 - y.getD i 0) ^ 2

/-- L1 distance of two sample vectors, written from the spec words
(sum over coordinates of absolute differences). -/
noncomputable def l1Dist (x y : List ℝ) : ℝ :=
  (Finset.range (min x.length y.length)).sum fun i => |x.getD i 0 - y.getD i 0|

/-- Modelled from the spec: the claimed Gaussian pairwise kernel term, the
exponential of the squared Euclidean distance scaled by `-1/(2*sigma^2)`. -/
noncomputable def specGaussKernelTerm (sigma : ℝ) (x y : List ℝ) : ℝ :=
  Real.exp (-(sqEuclidDist x y) / (2 * sigma ^ 2))

theorem sumSq_vecSub (x y : List ℝ) : sumSq (vecSub x y) = sqEuclidDist x y := by
  unfold sumSq vecSub sqEuclidDist
  induction x generalizing y with
  | nil => simp
  | cons a t ih =>
    cases y with
    | nil => simp
    | cons b u =>
      have h := ih u
      simp only [List.zip_cons_cons, List.map_cons, List.sum_cons, List.length_cons]
      rw [show (t.length + 1) ⊓ (u.length + 1) = t.length ⊓ u.length + 1 from
        Nat.succ_min_succ _ _, Finset.sum_range_succ']
      simp only [List.getD_cons_succ, List.getD_cons_zero]
      rw [← h]
      ring

theorem sumAbs_vecSub (x y : List ℝ) : sumAbs (vecSub x y) = l1Dist x y := by
  unfold sumAbs vecSub l1Dist
  induction x generalizing y with
  | nil => simp
  | cons a t ih =>
    cases y with
    | nil => simp
    | cons b u =>
      have h := ih u
      simp only [List.zip_cons_cons, List.map_cons, List.sum_cons, List.length_cons]
      rw [show (t.length + 1) ⊓ (u.length + 1) = t.length ⊓ u.length + 1 from
        Nat.succ_min_succ _ _, Finset.sum_range_succ']
      simp only [List.getD_cons_succ, List.getD_cons_zero]
      rw [← h]
      ring

/-- C1 (counterexample): at bandwidth `sigma = 2` and sample vectors `[0]` and
`[2]`, the Gaussian pairwise kernel term the code computes differs from the
claimed `exp` of the squared Euclidean distance scaled by `-1/(2*sigma^2)`:
the code divides by `2*sigma`, not `2*sigma^2`. -/
theorem bear_C1_counterexample :
    gaussKernelTerm 2 [0] [2] ≠ specGaussKernelTerm 2 [0] [2] := by
  have h1 : gaussKernelTerm 2 [0] [2] = Real.exp (-1) := by
    unfold gaussKernelTerm sumSq vecSub
    norm_num
  have h2 : specGaussKernelTerm 2 [0] [2] = Real.exp (-(1 / 2)) := by
    unfold specGaussKernelTerm sqEuclidDist
    norm_num
  rw [h1, h2]
  intro hEq
  rw [Real.exp_eq_exp] at hEq
  norm_num at hEq

/-- C1 (amended): for every bandwidth `sigma` and every pair of sample
vectors, the Gaussian-kernel estimator computes each pairwise kernel term as
the exponential of the squared Euclidean distance scaled by `-1/(2*sigma)`
(not `-1/(2*sigma^2)`), and the Laplacian-kernel estimator as the exponential
of the L1 distance scaled by `-1/(2*sigma)`. -/
theorem bear_C1_amended (sigma : ℝ) (x y : List ℝ) :
    gaussKernelTerm sigma x y = Real.exp (-(sqEuclidDist x y) / (2 * sigma))
    ∧ laplKernelTerm sigma x y = Real.exp (-(l1Dist x y) / (2 * sigma)) := by
  constructor
  · unfold gaussKernelTerm
    rw [sumSq_vecSub]
  · unfold laplKernelTerm
    rw [sumAbs_vecSub]

theorem zip_self {α : Type} (l : List α) : l.zip l = l.map fun a => (a, a) := by
  induction l with
  | nil => rfl
  | cons a t ih => simp [List.zip_cons_cons, ih]

/-- C4: both kernel similarity estimators return a non-negative value for
every batch item of every pair of input sample batches, and when the two
input batches are the same samples every batch item evaluates to exactly
`sqrt(1e-6) = 1/1000` — within numerical tolerance of zero, the residual left
by the epsilon added under the square root. -/
theorem bear_C4 (samples1 samples2 s : List (List (List ℝ))) (sigma : ℝ) :
    ((mmd_loss_gaussian samples1 samples2 sigma).Forall fun v => 0 ≤ v)
    ∧ ((mmd_loss_laplacian samples1 samples2 sigma).Forall fun v => 0 ≤ v)
    ∧ ((mmd_loss_gaussian s s sigma).Forall fun v => v = 1 / 1000)
    ∧ ((mmd_loss_laplacian s s sigma).Forall fun v => v = 1 / 1000) := by
  have hsq : Real.sqrt (1e-6 : ℝ) = 1 / 1000 := by
    have h : (1e-6 : ℝ) = (1 / 1000 : ℝ) ^ 2 := by norm_num
    rw [h, Real.sqrt_sq (by norm_num)]
  refine ⟨?_, ?_, ?_, ?_⟩
  · rw [List.forall_iff_forall_mem]
    intro v hv
    rcases List.mem_map.mp hv with ⟨p, _, hp⟩
    rw [← hp]
    exact Real.sqrt_nonneg _
  · rw [List.forall_iff_forall_mem]
    intro v hv
    rcases List.mem_map.mp hv with ⟨p, _, hp⟩
    rw [← hp]
    exact Real.sqrt_nonneg _
  · rw [List.forall_iff_forall_mem]
    intro v hv
    unfold mmd_loss_gaussian at hv
    rw [zip_self, List.map_map] at hv
    rcases List.mem_map.mp hv with ⟨b, _, hb⟩
    rw [← hb]
    simp only [Function.comp]
    rw [show pairMean (gaussKernelTerm sigma) b b
        + pairMean (gaussKernelTerm sigma) b b
        - 2 * pairMean (gaussKernelTerm sigma) b b + 1e-6 = (1e-6 : ℝ) by ring]
    exact hsq
  · rw [List.forall_iff_forall_mem]
    intro v hv
    unfold mmd_loss_laplacian at hv
    rw [zip_self, List.map_map] at hv
    rcases List.mem_map.mp hv with ⟨b, _, hb⟩
    rw [← hb]
    simp only [Function.comp]
    rw [show pairMean (laplKernelTerm sigma) b b
        + pairMean (laplKernelTerm sigma) b b
        - 2 * pairMean (laplKernelTerm sigma) b b + 1e-6 = (1e-6 : ℝ) by ring]
    exact hsq

/-! ## Policy (actor) update: loss composition and warm-up gating
(`BEAR_Agent.train`, the actor-training block) -/

/-- SAC actor loss `(self.alpha * log_prob - min_q).mean()`. -/
noncomputable def sacPolicyLoss (alpha : ℝ) (log_prob min_q : List ℝ) : ℝ :=
  listMean ((log_prob.zip min_q).map fun p => alpha * p.1 - p.2)

/-- BEAR support-penalty loss `(self.log_alpha_prime.exp() * mmd_loss).mean()`.
The source does not detach `log_alpha_prime` in this expression. -/
noncomputable def bearPenalty (log_alpha_prime : ℝ) (mmd : List ℝ) : ℝ :=
  listMean (mmd.map fun m => Real.exp log_alpha_prime * m)

/-- The actor loss actually backpropagated: the support penalty alone, with
the SAC policy loss added only once `self.train_step > self.warmup_step`. -/
noncomputable def actorLoss (step warmup : ℕ) (alpha log_alpha_prime : ℝ)
    (log_prob min_q mmd : List ℝ) : ℝ :=
  if warmup < step then
    sacPolicyLoss alpha log_prob min_q + bearPenalty log_alpha_prime mmd
  else bearPenalty log_alpha_prime mmd

/-- C2: on a synthetic single-sample step whose log-probability, min-Q and
support distance all depend on a scalar policy parameter `t`, before the
warm-up step count the applied gradient of the actor loss is
`exp(log_alpha_prime) * d(mmd)` — the support-penalty path alone, the
value-maximization term contributing nothing — and after warm-up the gradient
is the sum of the entropy-regularized actor-critic contribution
`alpha * d(log_prob) - d(min_q)` and the same support-penalty contribution. -/
theorem bear_C2 (step warmup : ℕ) (alpha lap th dlp dmq dmm : ℝ)
    (lp mq mm : ℝ → ℝ)
    (hlp : HasDerivAt lp dlp th) (hmq : HasDerivAt mq dmq th)
    (hmm : HasDerivAt mm dmm th) :
    (step < warmup →
      HasDerivAt (fun t => actorLoss step warmup alpha lap [lp t] [mq t] [mm t])
        (Real.exp lap * dmm) th)
    ∧ (warmup < step →
      HasDerivAt (fun t => actorLoss step warmup alpha lap [lp t] [mq t] [mm t])
        ((alpha * dlp - dmq) + Real.exp lap * dmm) th) := by
  constructor
  · intro hs
    have hnot : ¬ warmup < step := by omega
    have hfun : (fun t => actorLoss step warmup alpha lap [lp t] [mq t] [mm t])
        = fun t => Real.exp lap * mm t := by
      funext t
      simp [actorLoss, hnot, bearPenalty, listMean]
    rw [hfun]
    exact hmm.const_mul _
  · intro hs
    have hfun : (fun t => actorLoss step warmup alpha lap [lp t] [mq t] [mm t])
        = fun t => (alpha * lp t - mq t) + Real.exp lap * mm t := by
      funext t
      simp [actorLoss, hs, sacPolicyLoss, bearPenalty, listMean]
    rw [hfun]
    exact ((hlp.const_mul alpha).sub hmq).add (hmm.const_mul _)

/-- C2 witness: at concrete step counters 0 (before warm-up 1) and 2 (after),
with identity dependence on the policy parameter. -/
theorem bear_C2_witness :
    HasDerivAt (fun t => actorLoss 0 1 1 0 [t] [t] [t]) (Real.exp 0 * 1) 0
    ∧ HasDerivAt (fun t => actorLoss 2 1 1 0 [t] [t] [t])
        ((1 * 1 - 1) + Real.exp 0 * 1) 0 :=
  ⟨(bear_C2 0 1 1 0 0 1 1 1 (fun t => t) (fun t => t) (fun t => t)
      (hasDerivAt_id 0) (hasDerivAt_id 0) (hasDerivAt_id 0)).1 (by decide),
   (bear_C2 2 1 1 0 0 1 1 1 (fun t => t) (fun t => t) (fun t => t)
      (hasDerivAt_id 0) (hasDerivAt_id 0) (hasDerivAt_id 0)).2 (by decide)⟩

/-! ## Support multiplier `log_alpha_prime`: per-step update, clamp,
and gradient bookkeeping (`BEAR_Agent.train`, multiplier and actor blocks) -/

/-- `torch.clamp(x, min=lo, max=hi)`. -/
noncomputable def clampT (lo hi x : ℝ) : ℝ := max lo (min x hi)

theorem clampT_mem (lo hi x : ℝ) (h : lo ≤ hi) :
    lo ≤ clampT lo hi x ∧ clampT lo hi x ≤ hi :=
  ⟨le_max_left _ _, max_le h (min_le_right _ _)⟩

/-- The scalar `log_alpha_prime` value together with its accumulated
`.grad` field. -/
structure LapState where
  val : ℝ
  grad : ℝ

/-- One training iteration's effect on `log_alpha_prime`:
`alpha_prime_optimizer.zero_grad()` discards any previous gradient;
`alpha_prime_loss.backward(retain_graph=True)` deposits the multiplier-loss
gradient `g1`; the optimizer step (abstracted as `opt`) moves the value using
that gradient alone; `self.log_alpha_prime.data.clamp_(min=-5.0, max=10.0)`
clamps the value; then the policy update's `actor_loss.backward()` deposits a
further gradient `extra` into `.grad` through the undetached penalty term. -/
noncomputable def lapIter (opt : ℕ → ℝ → ℝ → ℝ) (g1 extra : ℕ → ℝ → ℝ)
    (n : ℕ) (s : LapState) : LapState :=
  let g := g1 n s.val
  let v := clampT (-5) 10 (opt n s.val g)
  ⟨v, g + extra n v⟩

/-- State of `log_alpha_prime` after `n` training iterations, starting from
the construction value `torch.tensor(0.0)`. -/
noncomputable def lapRun (opt : ℕ → ℝ → ℝ → ℝ) (g1 extra : ℕ → ℝ → ℝ) :
    ℕ → LapState
  | 0 => ⟨0, 0⟩
  | n + 1 => lapIter opt g1 extra n (lapRun opt g1 extra n)

theorem lapRun_succ_val (opt : ℕ → ℝ → ℝ → ℝ) (g1 extra : ℕ → ℝ → ℝ) (n : ℕ) :
    (lapRun opt g1 extra (n + 1)).val
      = clampT (-5) 10
          (opt n (lapRun opt g1 extra n).val
            (g1 n (lapRun opt g1 extra n).val)) := rfl

/-- C5: for every abstract optimizer and gradient stream, after any number of
training steps `log_alpha_prime` stays in the closed interval [-5, 10] — the
clamp runs after every multiplier optimizer step — and therefore
`alpha_prime = exp(log_alpha_prime)` stays in [exp(-5), exp(10)]. -/
theorem bear_C5 (opt : ℕ → ℝ → ℝ → ℝ) (g1 extra : ℕ → ℝ → ℝ) (n : ℕ) :
    -5 ≤ (lapRun opt g1 extra n).val ∧ (lapRun opt g1 extra n).val ≤ 10
    ∧ Real.exp (-5) ≤ Real.exp ((lapRun opt g1 extra n).val)
    ∧ Real.exp ((lapRun opt g1 extra n).val) ≤ Real.exp 10 := by
  have hb : -5 ≤ (lapRun opt g1 extra n).val
      ∧ (lapRun opt g1 extra n).val ≤ 10 := by
    cases n with
    | zero =>
      constructor
      · norm_num [lapRun]
      · norm_num [lapRun]
    | succ m =>
      rw [lapRun_succ_val]
      exact clampT_mem _ _ _ (by norm_num)
  exact ⟨hb.1, hb.2, Real.exp_le_exp.mpr hb.1, Real.exp_le_exp.mpr hb.2⟩

/-- C6 (counterexample): the support-penalty term does not detach the
multiplier: at `log_alpha_prime = 0` with a single MMD value 1, the
derivative of `(self.log_alpha_prime.exp() * mmd_loss).mean()` with respect
to `log_alpha_prime` is `exp 0 = 1`, not 0, so the policy update's backward
pass does propagate a gradient into `log_alpha_prime` from this path. -/
theorem bear_C6_counterexample :
    deriv (fun l => bearPenalty l [1]) 0 ≠ 0 := by
  have hfun : (fun l : ℝ => bearPenalty l [1]) = Real.exp := by
    funext l
    simp [bearPenalty, listMean]
  rw [hfun, Real.deriv_exp]
  exact Real.exp_ne_zero 0

/-- C6 (amended): the support-penalty loss uses `log_alpha_prime` without
detaching it, so the policy update's backward pass propagates the gradient
`exp(log_alpha_prime) * mean(mmd)` into `log_alpha_prime`; nevertheless the
multiplier's value after any number of training steps is unchanged by that
stray gradient, because `alpha_prime_optimizer.zero_grad()` clears the
accumulated gradient before the multiplier's own backward pass each step. -/
theorem bear_C6_amended (opt : ℕ → ℝ → ℝ → ℝ) (g1 extra extra2 : ℕ → ℝ → ℝ)
    (n : ℕ) (lap : ℝ) (mmd : List ℝ) :
    (lapRun opt g1 extra n).val = (lapRun opt g1 extra2 n).val
    ∧ deriv (fun l => bearPenalty l mmd) lap = Real.exp lap * listMean mmd := by
  constructor
  · induction n with
    | zero => rfl
    | succ m ih => rw [lapRun_succ_val, lapRun_succ_val, ih]
  · have hfun : (fun l : ℝ => bearPenalty l mmd)
        = fun l => Real.exp l * listMean mmd := by
      funext l
      unfold bearPenalty listMean
      rw [List.length_map, List.sum_map_mul_left mmd (fun m => m) (Real.exp l),
        mul_div_assoc]
      simp
    rw [hfun]
    exact ((Real.hasDerivAt_exp lap).mul_const (listMean mmd)).deriv

/-! ## Critic target computation (`BEAR_Agent.train`, critic block) -/

/-- `torch.repeat_interleave(l, repeats=n, dim=0)`. -/
def repeatInterleave {α : Type} (l : List α) (n : ℕ) : List α :=
  (l.map (List.replicate n)).flatten

theorem repeatInterleave_cons {α : Type} (a : α) (t : List α) (n : ℕ) :
    repeatInterleave (a :: t) n = List.replicate n a ++ repeatInterleave t n := rfl

theorem length_repeatInterleave {α : Type} (l : List α) (n : ℕ) :
    (repeatInterleave l n).length = l.length * n := by
  induction l with
  | nil => simp [repeatInterleave]
  | cons a t ih =>
    rw [repeatInterleave_cons]
    simp only [List.length_append, List.length_replicate, List.length_cons, ih]
    ring

theorem getD_replicate_of_lt {α : Type} (a d : α) {n i : ℕ} (h : i < n) :
    (List.replicate n a).getD i d = a := by
  rw [List.getD_eq_getElem _ _ (by simpa using h)]
  exact List.getElem_replicate _ _

theorem getD_repeatInterleave {α : Type} (l : List α) (n b j : ℕ) (d : α)
    (hb : b < l.length) (hj : j < n) :
    (repeatInterleave l n).getD (b * n + j) d = l.getD b d := by
  induction l generalizing b with
  | nil => cases hb
  | cons a t ih =>
    rw [repeatInterleave_cons]
    cases b with
    | zero =>
      rw [List.getD_append _ _ _ _ (by simpa using hj)]
      simpa using getD_replicate_of_lt a d hj
    | succ b =>
      have hidx : (b + 1) * n + j = n + (b * n + j) := by ring
      rw [hidx, List.getD_append_right _ _ _ _ (by simp)]
      simpa using ih b (by simpa using hb)

theorem getD_map_zip {α β γ : Type} (f : α → β → γ) (l1 : List α) (l2 : List β)
    (i : ℕ) (d1 : α) (d2 : β) (dg : γ) (h1 : i < l1.length) (h2 : i < l2.length) :
    ((l1.zip l2).map fun p => f p.1 p.2).getD i dg
      = f (l1.getD i d1) (l2.getD i d2) := by
  induction l1 generalizing l2 i with
  | nil => cases h1
  | cons a t ih =>
    cases l2 with
    | nil => cases h2
    | cons b u =>
      cases i with
      | zero => simp
      | succ i =>
        simpa using ih u i (Nat.lt_of_succ_lt_succ h1) (Nat.lt_of_succ_lt_succ h2)

theorem getD_zip {α β : Type} (l1 : List α) (l2 : List β) (i : ℕ) (d1 : α)
    (d2 : β) (h1 : i < l1.length) (h2 : i < l2.length) :
    (l1.zip l2).getD i (d1, d2) = (l1.getD i d1, l2.getD i d2) := by
  induction l1 generalizing l2 i with
  | nil => cases h1
  | cons a t ih =>
    cases l2 with
    | nil => cases h2
    | cons b u =>
      cases i with
      | zero => simp
      | succ i =>
        simpa using ih u i (Nat.lt_of_succ_lt_succ h1) (Nat.lt_of_succ_lt_succ h2)

theorem getD_range_map {α : Type} (g : ℕ → α) (B i : ℕ) (d : α) (h : i < B) :
    ((List.range B).map g).getD i d = g i := by
  rw [List.getD_eq_getElem _ _ (by simpa using h)]
  simp

theorem list_eq_range_map_getD {α : Type} (l : List α) (d : α) :
    l = (List.range l.length).map fun i => l.getD i d := by
  apply List.ext_getElem
  · simp
  · intro i h1 h2
    rw [← List.getD_eq_getElem _ d h1]
    simp only [List.getElem_map, List.getElem_range]

/-- Soft clipped double q-learning combination
`self.lmbda * torch.min(q1, q2) + (1. - self.lmbda) * torch.max(q1, q2)`. -/
noncomputable def softClip (lmbda q1 q2 : ℝ) : ℝ :=
  lmbda * min q1 q2 + (1 - lmbda) * max q1 q2

/-- `target_q.reshape(obs.shape[0], 10, 1).max(1)[0].squeeze(1)`: the reshape
is well-formed only when the flat length equals `B * 10` (row-major layout
puts element `(b, j)` at flat index `b*10 + j`); the group size 10 is the
hard-coded constant of the source. -/
noncomputable def reshapeMax (tq : List ℝ) (B : ℕ) : Option (List ℝ) :=
  if tq.length = B * 10 then
    some ((List.range B).map fun b =>
      listMax ((List.range 10).map fun j => tq.getD (b * 10 + j) 0))
  else none

/-- The critic regression target of `BEAR_Agent.train` (the `torch.no_grad()`
block): each next-observation is repeated `nts = n_target_samples` times;
target critic 1 is evaluated on the policy draws `acts1` of the first
`self.policy_net(next_obs)[0]` call and target critic 2 on the draws `acts2`
of the second, independent call; the two estimates are combined per position
with `softClip`; the flat result is reshaped into groups of 10 and maxed; the
bootstrap is `rews + self.gamma * (1. - done) * target_q`. -/
noncomputable def codeTargetQ {O A : Type} (Q1t Q2t : O → A → ℝ)
    (lmbda gamma : ℝ) (nts : ℕ) (next_obs : List O) (acts1 acts2 : List A)
    (rews done : List ℝ) : Option (List ℝ) :=
  let rep := repeatInterleave next_obs nts
  let tq1 := (rep.zip acts1).map fun p => Q1t p.1 p.2
  let tq2 := (rep.zip acts2).map fun p => Q2t p.1 p.2
  let tq := (tq1.zip tq2).map fun p => softClip lmbda p.1 p.2
  match reshapeMax tq next_obs.length with
  | none => none
  | some mx => some (((rews.zip done).zip mx).map fun p =>
      p.1.1 + gamma * (1 - p.1.2) * p.2)

/-- Modelled from the spec: the target computation the claim describes, in
which one action per repeated copy is drawn from the policy and both target
critics are evaluated on that same draw. -/
noncomputable def specSharedTargetQ {O A : Type} (Q1t Q2t : O → A → ℝ)
    (lmbda gamma : ℝ) (nts : ℕ) (next_obs : List O) (acts : List A)
    (rews done : List ℝ) : Option (List ℝ) :=
  codeTargetQ Q1t Q2t lmbda gamma nts next_obs acts acts rews done

theorem codeTargetQ_def {O A : Type} (Q1t Q2t : O → A → ℝ) (lmbda gamma : ℝ)
    (nts : ℕ) (next_obs : List O) (acts1 acts2 : List A) (rews done : List ℝ) :
    codeTargetQ Q1t Q2t lmbda gamma nts next_obs acts1 acts2 rews done
      = match reshapeMax
            (((((repeatInterleave next_obs nts).zip acts1).map fun p => Q1t p.1 p.2).zip
              (((repeatInterleave next_obs nts).zip acts2).map fun p => Q2t p.1 p.2)).map
              fun p => softClip lmbda p.1 p.2)
            next_obs.length with
        | none => none
        | some mx => some (((rews.zip done).zip mx).map fun p =>
            p.1.1 + gamma * (1 - p.1.2) * p.2) := rfl

theorem getD_softClip_zip (lmbda : ℝ) (l1 l2 : List ℝ) (i : ℕ)
    (h1 : i < l1.length) (h2 : i < l2.length) :
    ((l1.zip l2).map fun p => softClip lmbda p.1 p.2).getD i 0
      = softClip lmbda (l1.getD i 0) (l2.getD i 0) :=
  getD_map_zip (fun x y => softClip lmbda x y) l1 l2 i 0 0 0 h1 h2

theorem getD_Q_zip {O A : Type} [Inhabited O] [Inhabited A] (Q : O → A → ℝ)
    (l1 : List O) (l2 : List A) (i : ℕ) (h1 : i < l1.length)
    (h2 : i < l2.length) :
    ((l1.zip l2).map fun p => Q p.1 p.2).getD i 0
      = Q (l1.getD i default) (l2.getD i default) :=
  getD_map_zip Q l1 l2 i default default 0 h1 h2

theorem getD_bootstrap (gamma : ℝ) (rews done mx : List ℝ) (i : ℕ)
    (h1 : i < rews.length) (h2 : i < done.length) (h3 : i < mx.length) :
    (((rews.zip done).zip mx).map fun p =>
        p.1.1 + gamma * (1 - p.1.2) * p.2).getD i 0
      = rews.getD i 0 + gamma * (1 - done.getD i 0) * mx.getD i 0 := by
  have h12 : i < (rews.zip done).length := by
    rw [List.length_zip]
    omega
  have hm := getD_map_zip (fun x y => x.1 + gamma * (1 - x.2) * y)
    (rews.zip done) mx i (0, 0) 0 0 h12 h3
  exact hm.trans (by rw [getD_zip rews done i 0 0 h1 h2])

theorem listMax_replicate (n : ℕ) (c : ℝ) (h : 0 < n) :
    listMax (List.replicate n c) = c := by
  induction n with
  | zero => cases h
  | succ k ih =>
    cases k with
    | zero => rfl
    | succ m =>
      have hm : listMax (List.replicate (m + 1 + 1) c)
          = max c (listMax (List.replicate (m + 1) c)) := rfl
      rw [hm, ih (Nat.succ_pos m), max_self]

/-- Index-wise evaluation of the critic target pipeline: under well-formed
shapes (which force `n_target_samples = 10`), entry `b` of the target is the
bootstrap of the max over the 10 contiguous policy draws belonging to
next-observation `b`, each critic applied to the draws of its own policy
call. -/
theorem codeTargetQ_eq {O A : Type} [Inhabited O] [Inhabited A]
    (Q1t Q2t : O → A → ℝ) (lmbda gamma : ℝ) (nts : ℕ)
    (next_obs : List O) (acts1 acts2 : List A) (rews done : List ℝ)
    (hnts : nts = 10)
    (h1 : acts1.length = next_obs.length * nts)
    (h2 : acts2.length = next_obs.length * nts)
    (hr : rews.length = next_obs.length) (hd : done.length = next_obs.length) :
    codeTargetQ Q1t Q2t lmbda gamma nts next_obs acts1 acts2 rews done
      = some ((List.range next_obs.length).map fun b =>
          rews.getD b 0 + gamma * (1 - done.getD b 0) *
            listMax ((List.range 10).map fun j =>
              softClip lmbda
                (Q1t (next_obs.getD b default) (acts1.getD (b * 10 + j) default))
                (Q2t (next_obs.getD b default) (acts2.getD (b * 10 + j) default)))) := by
  subst hnts
  rw [codeTargetQ_def]
  set rep := repeatInterleave next_obs 10 with hrepd
  set tq1 := (rep.zip acts1).map (fun p => Q1t p.1 p.2) with htq1d
  set tq2 := (rep.zip acts2).map (fun p => Q2t p.1 p.2) with htq2d
  set tq := (tq1.zip tq2).map (fun p => softClip lmbda p.1 p.2) with htqd
  have hreplen : rep.length = next_obs.length * 10 := by
    rw [hrepd]
    exact length_repeatInterleave next_obs 10
  have hlen1 : tq1.length = next_obs.length * 10 := by
    rw [htq1d]
    simp [List.length_zip, hreplen, h1]
  have hlen2 : tq2.length = next_obs.length * 10 := by
    rw [htq2d]
    simp [List.length_zip, hreplen, h2]
  have hlen : tq.length = next_obs.length * 10 := by
    rw [htqd]
    simp [List.length_zip, hlen1, hlen2]
  have hmx : reshapeMax tq next_obs.length
      = some ((List.range next_obs.length).map fun b =>
          listMax ((List.range 10).map fun j => tq.getD (b * 10 + j) 0)) := by
    simp only [reshapeMax]
    rw [if_pos hlen]
  rw [hmx]
  refine congrArg some ?_
  set mx := (List.range next_obs.length).map
    (fun b => listMax ((List.range 10).map fun j => tq.getD (b * 10 + j) 0))
    with hmxd
  have hmxlen : mx.length = next_obs.length := by
    rw [hmxd]
    simp
  have hLlen : (((rews.zip done).zip mx).map
      (fun p => p.1.1 + gamma * (1 - p.1.2) * p.2)).length = next_obs.length := by
    simp [List.length_zip, hr, hd, hmxlen]
  have hstep : ((rews.zip done).zip mx).map
        (fun p => p.1.1 + gamma * (1 - p.1.2) * p.2)
      = (List.range next_obs.length).map
          (fun i => (((rews.zip done).zip mx).map
            (fun p => p.1.1 + gamma * (1 - p.1.2) * p.2)).getD i 0) := by
    conv_lhs => rw [list_eq_range_map_getD (((rews.zip done).zip mx).map
      (fun p => p.1.1 + gamma * (1 - p.1.2) * p.2)) 0]
    rw [hLlen]
  rw [hstep]
  apply List.map_congr_left
  intro b hb
  have hbB : b < next_obs.length := List.mem_range.mp hb
  rw [getD_bootstrap gamma rews done mx b (by omega) (by omega) (by omega)]
  have hmxb : mx.getD b 0
      = listMax ((List.range 10).map fun j => tq.getD (b * 10 + j) 0) := by
    rw [hmxd]
    exact getD_range_map _ _ _ _ hbB
  rw [hmxb]
  have hinner : ∀ j ∈ List.range 10, tq.getD (b * 10 + j) 0
      = softClip lmbda
          (Q1t (next_obs.getD b default) (acts1.getD (b * 10 + j) default))
          (Q2t (next_obs.getD b default) (acts2.getD (b * 10 + j) default)) := by
    intro j hj
    have hj10 : j < 10 := List.mem_range.mp hj
    have e1 : tq.getD (b * 10 + j) 0
        = softClip lmbda (tq1.getD (b * 10 + j) 0) (tq2.getD (b * 10 + j) 0) := by
      rw [htqd]
      exact getD_softClip_zip lmbda tq1 tq2 _ (by omega) (by omega)
    have e2 : tq1.getD (b * 10 + j) 0
        = Q1t (rep.getD (b * 10 + j) default) (acts1.getD (b * 10 + j) default) := by
      rw [htq1d]
      exact getD_Q_zip Q1t rep acts1 _ (by omega) (by omega)
    have e3 : tq2.getD (b * 10 + j) 0
        = Q2t (rep.getD (b * 10 + j) default) (acts2.getD (b * 10 + j) default) := by
      rw [htq2d]
      exact getD_Q_zip Q2t rep acts2 _ (by omega) (by omega)
    have e4 : rep.getD (b * 10 + j) default = next_obs.getD b default := by
      rw [hrepd]
      exact getD_repeatInterleave next_obs 10 b j default hbB hj10
    rw [e1, e2, e3, e4]
  rw [List.map_congr_left hinner]

/-- C3 (amended): the critic regression target is computed per batch index
`b` as `reward + gamma*(1-done)*max` over the group of 10 draws belonging to
next-observation `b`, each draw combined as `lmbda*min + (1-lmbda)*max` of
the two target critics — but each target critic is evaluated on its own,
independently drawn policy actions (`self.policy_net(next_obs)[0]` is called
once per critic), not on one shared draw per copy; both critics then regress
to this same shared target with separate optimizers. -/
theorem bear_C3_amended {O A : Type} [Inhabited O] [Inhabited A]
    (Q1t Q2t : O → A → ℝ) (lmbda gamma : ℝ) (nts : ℕ)
    (next_obs : List O) (acts1 acts2 : List A) (rews done : List ℝ)
    (hnts : nts = 10)
    (h1 : acts1.length = next_obs.length * nts)
    (h2 : acts2.length = next_obs.length * nts)
    (hr : rews.length = next_obs.length) (hd : done.length = next_obs.length) :
    codeTargetQ Q1t Q2t lmbda gamma nts next_obs acts1 acts2 rews done
      = some ((List.range next_obs.length).map fun b =>
          rews.getD b 0 + gamma * (1 - done.getD b 0) *
            listMax ((List.range 10).map fun j =>
              softClip lmbda
                (Q1t (next_obs.getD b default) (acts1.getD (b * 10 + j) default))
                (Q2t (next_obs.getD b default) (acts2.getD (b * 10 + j) default)))) :=
  codeTargetQ_eq Q1t Q2t lmbda gamma nts next_obs acts1 acts2 rews done
    hnts h1 h2 hr hd

/-- C3 witness: concrete single-element batch with ten draws per critic. -/
theorem bear_C3_amended_witness :
    codeTargetQ (fun (_ : ℝ) (a : ℝ) => a) (fun (_ : ℝ) (a : ℝ) => a) 1 1 10
        [0] (List.replicate 10 0) (List.replicate 10 0) [0] [0]
      = some ((List.range 1).map fun b =>
          ([(0 : ℝ)].getD b 0) + 1 * (1 - [(0 : ℝ)].getD b 0) *
            listMax ((List.range 10).map fun j =>
              softClip 1 ((List.replicate 10 (0 : ℝ)).getD (b * 10 + j) default)
                ((List.replicate 10 (0 : ℝ)).getD (b * 10 + j) default))) :=
  bear_C3_amended (fun (_ : ℝ) (a : ℝ) => a) (fun (_ : ℝ) (a : ℝ) => a) 1 1 10
    [0] (List.replicate 10 0) (List.replicate 10 0) [0] [0]
    rfl (by simp) (by simp) rfl rfl

/-- Evaluation of the target pipeline on a single-observation batch with
constant draw streams: every group entry combines `Q1t 0 a1` with `Q2t 0 a2`. -/
theorem targetEval (Q1t Q2t : ℝ → ℝ → ℝ) (lmbda : ℝ) (a1 a2 c : ℝ)
    (hc : softClip lmbda (Q1t 0 a1) (Q2t 0 a2) = c) :
    codeTargetQ Q1t Q2t lmbda 1 10 [0] (List.replicate 10 a1)
        (List.replicate 10 a2) [0] [0]
      = some [c] := by
  rw [codeTargetQ_eq Q1t Q2t lmbda 1 10 [0] (List.replicate 10 a1)
    (List.replicate 10 a2) [0] [0] rfl (by simp) (by simp) rfl rfl]
  refine congrArg some ?_
  rw [show List.range ([(0 : ℝ)].length) = [0] from by simp [List.range_succ]]
  simp only [List.map_cons, List.map_nil]
  congr 1
  simp only [List.getD_cons_zero]
  have hin : ∀ j ∈ List.range 10,
      softClip lmbda (Q1t 0 ((List.replicate 10 a1).getD (0 * 10 + j) default))
        (Q2t 0 ((List.replicate 10 a2).getD (0 * 10 + j) default)) = c := by
    intro j hj
    have hj10 : j < 10 := List.mem_range.mp hj
    rw [getD_replicate_of_lt _ _ (by omega), getD_replicate_of_lt _ _ (by omega)]
    exact hc
  rw [List.map_congr_left hin, List.map_const']
  rw [List.length_range, listMax_replicate 10 c (by norm_num)]
  ring

/-- C3 (counterexample): with target critics `Q1(s,a) = a`, `Q2(s,a) = -a`,
interpolation `lmbda = 1/2`, `gamma = 1`, zero reward and done, a single
next-observation, and the two policy calls drawing constant streams `1` and
`-1`, the code's target is `[1]`, while the claimed computation — one action
per copy with both target critics evaluated on the same draw — yields `[0]`
whichever of the two drawn streams is taken as the shared one. -/
theorem bear_C3_counterexample :
    codeTargetQ (fun (_ : ℝ) (a : ℝ) => a) (fun (_ : ℝ) (a : ℝ) => -a)
        (1 / 2) 1 10 [0] (List.replicate 10 1) (List.replicate 10 (-1)) [0] [0]
      ≠ specSharedTargetQ (fun (_ : ℝ) (a : ℝ) => a) (fun (_ : ℝ) (a : ℝ) => -a)
        (1 / 2) 1 10 [0] (List.replicate 10 1) [0] [0]
    ∧ codeTargetQ (fun (_ : ℝ) (a : ℝ) => a) (fun (_ : ℝ) (a : ℝ) => -a)
        (1 / 2) 1 10 [0] (List.replicate 10 1) (List.replicate 10 (-1)) [0] [0]
      ≠ specSharedTargetQ (fun (_ : ℝ) (a : ℝ) => a) (fun (_ : ℝ) (a : ℝ) => -a)
        (1 / 2) 1 10 [0] (List.replicate 10 (-1)) [0] [0] := by
  have e1 : codeTargetQ (fun (_ : ℝ) (a : ℝ) => a) (fun (_ : ℝ) (a : ℝ) => -a)
      (1 / 2) 1 10 [0] (List.replicate 10 1) (List.replicate 10 (-1)) [0] [0]
      = some [1] := by
    refine targetEval _ _ _ _ _ _ ?_
    norm_num [softClip]
  have e2 : specSharedTargetQ (fun (_ : ℝ) (a : ℝ) => a) (fun (_ : ℝ) (a : ℝ) => -a)
      (1 / 2) 1 10 [0] (List.replicate 10 1) [0] [0] = some [0] := by
    refine targetEval _ _ _ _ _ _ ?_
    norm_num [softClip, min_def, max_def]
  have e3 : specSharedTargetQ (fun (_ : ℝ) (a : ℝ) => a) (fun (_ : ℝ) (a : ℝ) => -a)
      (1 / 2) 1 10 [0] (List.replicate 10 (-1)) [0] [0] = some [0] := by
    refine targetEval _ _ _ _ _ _ ?_
    norm_num [softClip, min_def, max_def]
  rw [e1, e2, e3]
  norm_num

/-- C7: the reshape-and-max step hard-codes group size 10 while the repeat
count is the configurable `n_target_samples`: a flat target list of length
`B * n_target_samples` passes the reshape for every positive batch size `B`
exactly when `n_target_samples = 10`, and on well-formed inputs the whole
target computation succeeds iff `B * n_target_samples = B * 10`. -/
theorem bear_C7 :
    (∀ nts : ℕ, (∀ (B : ℕ) (tq : List ℝ), tq.length = B * nts → 0 < B →
        (reshapeMax tq B).isSome = true) ↔ nts = 10)
    ∧ ∀ (Q1t Q2t : ℝ → ℝ → ℝ) (lmbda gamma : ℝ) (nts : ℕ)
        (next_obs acts1 acts2 rews done : List ℝ),
        acts1.length = next_obs.length * nts →
        acts2.length = next_obs.length * nts →
        ((codeTargetQ Q1t Q2t lmbda gamma nts next_obs acts1 acts2
            rews done).isSome = true
          ↔ next_obs.length * nts = next_obs.length * 10) := by
  constructor
  · intro nts
    constructor
    · intro h
      have h2 := h 1 (List.replicate nts 0) (by simp) one_pos
      by_contra hne
      simp only [reshapeMax, List.length_replicate] at h2
      rw [if_neg (by omega)] at h2
      simp at h2
    · intro h B tq hlen hB
      subst h
      simp [reshapeMax, hlen]
  · intro Q1t Q2t lmbda gamma nts next_obs acts1 acts2 rews done h1 h2
    rw [codeTargetQ_def]
    have hlen : (((((repeatInterleave next_obs nts).zip acts1).map
          fun p => Q1t p.1 p.2).zip
          (((repeatInterleave next_obs nts).zip acts2).map fun p => Q2t p.1 p.2)).map
          fun p => softClip lmbda p.1 p.2).length = next_obs.length * nts := by
      simp [List.length_zip, length_repeatInterleave, h1, h2]
    by_cases hc : next_obs.length * nts = next_obs.length * 10
    · simp only [reshapeMax]
      rw [if_pos (hlen.trans hc)]
      simp [hc]
    · simp only [reshapeMax]
      rw [if_neg (by rw [hlen]; exact hc)]
      simp [hc]

/-- C7 witness: the reshape succeeds on a batch of 1 with a flat list of 10
entries, and the full pipeline succeeds on well-formed inputs with
`n_target_samples = 10`. -/
theorem bear_C7_witness :
    (reshapeMax (List.replicate 10 (0 : ℝ)) 1).isSome = true
    ∧ ((codeTargetQ (fun (_ : ℝ) (a : ℝ) => a) (fun (_ : ℝ) (a : ℝ) => a) 1 1 10
        [(0 : ℝ)] (List.replicate 10 (0 : ℝ)) (List.replicate 10 (0 : ℝ))
        [(0 : ℝ)] [(0 : ℝ)]).isSome = true
      ↔ [(0 : ℝ)].length * 10 = [(0 : ℝ)].length * 10) :=
  ⟨(bear_C7.1 10).mpr rfl 1 (List.replicate 10 0) (by simp) one_pos,
   bear_C7.2 (fun _ a => a) (fun _ a => a) 1 1 10 [0] (List.replicate 10 0)
     (List.replicate 10 0) [0] [0] (by simp) (by simp)⟩

/-! ## Checkpointing (`store_agent_checkpoint`, `load_agent_checkpoint`) -/

/-- The mutable learnable state of a `BEAR_Agent`; `T` abstracts a serialized
parameter tensor or optimizer `state_dict`. The temperature fields are
`Option` because the attributes exist only when `auto_alpha_tuning` was
enabled at construction. -/
structure AgentState (T : Type) where
  q_net1 : T
  q_net2 : T
  policy_net : T
  target_q_net1 : T
  target_q_net2 : T
  cvae_net : T
  q_optimizer1 : T
  q_optimizer2 : T
  policy_optimizer : T
  cvae_optimizer : T
  auto_alpha_tuning : Bool
  log_alpha : Option T
  alpha_optimizer : Option T
  log_alpha_prime : T
  alpha_prime_optimizer : T
  train_step : ℕ

/-- The checkpoint record written by `store_agent_checkpoint`; the
`log_alpha` and `alpha_optimizer` keys are present only when the record was
saved with `auto_alpha_tuning` enabled. -/
structure Checkpoint (T : Type) where
  q_net1 : T
  q_net2 : T
  policy_net : T
  q_optimizer1 : T
  q_optimizer2 : T
  policy_optimizer : T
  train_step : ℕ
  log_alpha : Option T
  alpha_optimizer : Option T
  log_alpha_prime : T
  alpha_prime_optimizer : T

/-- `BEAR_Agent.store_agent_checkpoint` (modulo the `torch.save` call). -/
def store_agent_checkpoint {T : Type} (a : AgentState T) : Checkpoint T :=
  { q_net1 := a.q_net1, q_net2 := a.q_net2, policy_net := a.policy_net,
    q_optimizer1 := a.q_optimizer1, q_optimizer2 := a.q_optimizer2,
    policy_optimizer := a.policy_optimizer, train_step := a.train_step,
    log_alpha := if a.auto_alpha_tuning then a.log_alpha else none,
    alpha_optimizer := if a.auto_alpha_tuning then a.alpha_optimizer else none,
    log_alpha_prime := a.log_alpha_prime,
    alpha_prime_optimizer := a.alpha_prime_optimizer }

/-- `BEAR_Agent.load_agent_checkpoint`: overwrites exactly the fields present
in the record; when the loading agent has `auto_alpha_tuning` set, the
optional keys must be present — a missing key is a fatal `KeyError`,
modelled as `none`. -/
def load_agent_checkpoint {T : Type} (cp : Checkpoint T) (a : AgentState T) :
    Option (AgentState T) :=
  if a.auto_alpha_tuning then
    match cp.log_alpha, cp.alpha_optimizer with
    | some la, some ao =>
      some { a with
        q_net1 := cp.q_net1
        q_net2 := cp.q_net2
        policy_net := cp.policy_net
        q_optimizer1 := cp.q_optimizer1
        q_optimizer2 := cp.q_optimizer2
        policy_optimizer := cp.policy_optimizer
        train_step := cp.train_step
        log_alpha := some la
        alpha_optimizer := some ao
        log_alpha_prime := cp.log_alpha_prime
        alpha_prime_optimizer := cp.alpha_prime_optimizer }
    | _, _ => none
  else
    some { a with
      q_net1 := cp.q_net1
      q_net2 := cp.q_net2
      policy_net := cp.policy_net
      q_optimizer1 := cp.q_optimizer1
      q_optimizer2 := cp.q_optimizer2
      policy_optimizer := cp.policy_optimizer
      train_step := cp.train_step
      log_alpha_prime := cp.log_alpha_prime
      alpha_prime_optimizer := cp.alpha_prime_optimizer }

/-- C8: saving a checkpoint and loading it back — into an agent with the same
`auto_alpha_tuning` flag, whose optional fields exist whenever the flag is
set — succeeds and restores every field the record contains (both critics
and their optimizers, the policy and its optimizer, `log_alpha_prime` and
its optimizer, the temperature `log_alpha` and its optimizer when
auto-tuning is enabled) and the step counter, identical to their values at
save time. -/
theorem bear_C8 {T : Type} (a b : AgentState T)
    (hflag : b.auto_alpha_tuning = a.auto_alpha_tuning)
    (hsome : a.auto_alpha_tuning = true →
      a.log_alpha.isSome = true ∧ a.alpha_optimizer.isSome = true) :
    ∃ c, load_agent_checkpoint (store_agent_checkpoint a) b = some c
      ∧ c.q_net1 = a.q_net1 ∧ c.q_net2 = a.q_net2 ∧ c.policy_net = a.policy_net
      ∧ c.q_optimizer1 = a.q_optimizer1 ∧ c.q_optimizer2 = a.q_optimizer2
      ∧ c.policy_optimizer = a.policy_optimizer
      ∧ c.log_alpha_prime = a.log_alpha_prime
      ∧ c.alpha_prime_optimizer = a.alpha_prime_optimizer
      ∧ c.train_step = a.train_step
      ∧ (a.auto_alpha_tuning = true →
          c.log_alpha = a.log_alpha ∧ c.alpha_optimizer = a.alpha_optimizer) := by
  by_cases hauto : a.auto_alpha_tuning = true
  · obtain ⟨h1, h2⟩ := hsome hauto
    obtain ⟨la, hla⟩ := Option.isSome_iff_exists.mp h1
    obtain ⟨ao, hao⟩ := Option.isSome_iff_exists.mp h2
    refine ⟨{ b with
      q_net1 := a.q_net1
      q_net2 := a.q_net2
      policy_net := a.policy_net
      q_optimizer1 := a.q_optimizer1
      q_optimizer2 := a.q_optimizer2
      policy_optimizer := a.policy_optimizer
      train_step := a.train_step
      log_alpha := some la
      alpha_optimizer := some ao
      log_alpha_prime := a.log_alpha_prime
      alpha_prime_optimizer := a.alpha_prime_optimizer }, ?_, rfl, rfl, rfl,
      rfl, rfl, rfl, rfl, rfl, rfl, fun _ => ⟨hla.symm, hao.symm⟩⟩
    simp [load_agent_checkpoint, store_agent_checkpoint, hflag, hauto, hla, hao]
  · have hfalse : a.auto_alpha_tuning = false := by
      cases h : a.auto_alpha_tuning
      · rfl
      · exact absurd h hauto
    refine ⟨{ b with
      q_net1 := a.q_net1
      q_net2 := a.q_net2
      policy_net := a.policy_net
      q_optimizer1 := a.q_optimizer1
      q_optimizer2 := a.q_optimizer2
      policy_optimizer := a.policy_optimizer
      train_step := a.train_step
      log_alpha_prime := a.log_alpha_prime
      alpha_prime_optimizer := a.alpha_prime_optimizer }, ?_, rfl, rfl, rfl,
      rfl, rfl, rfl, rfl, rfl, rfl, fun hcontra => absurd hcontra hauto⟩
    simp [load_agent_checkpoint, store_agent_checkpoint, hflag, hfalse]

/-- Concrete agent with auto-entropy-tuning enabled, for the C8 witness. -/
def agent0 : AgentState ℕ :=
  ⟨1, 2, 3, 4, 5, 6, 7, 8, 9, 10, true, some 11, some 12, 13, 14, 15⟩

/-- C8 witness: round-trip on a concrete agent with auto-tuning enabled. -/
theorem bear_C8_witness :
    ∃ c, load_agent_checkpoint (store_agent_checkpoint agent0) agent0 = some c
      ∧ c.q_net1 = agent0.q_net1 ∧ c.q_net2 = agent0.q_net2
      ∧ c.policy_net = agent0.policy_net
      ∧ c.q_optimizer1 = agent0.q_optimizer1
      ∧ c.q_optimizer2 = agent0.q_optimizer2
      ∧ c.policy_optimizer = agent0.policy_optimizer
      ∧ c.log_alpha_prime = agent0.log_alpha_prime
      ∧ c.alpha_prime_optimizer = agent0.alpha_prime_optimizer
      ∧ c.train_step = agent0.train_step
      ∧ (agent0.auto_alpha_tuning = true →
          c.log_alpha = agent0.log_alpha
          ∧ c.alpha_optimizer = agent0.alpha_optimizer) :=
  bear_C8 agent0 agent0 rfl (fun _ => ⟨rfl, rfl⟩)

/-- C9: loading any checkpoint leaves the two target critic networks, the
behavior model (CVAE) and its optimizer completely unchanged — the load
never writes them — and the stored record is independent of them, so after a
resume the target critics hold whatever values they had before loading (the
construction-time deep-copy snapshot), not the freshly loaded online critic
parameters. -/
theorem bear_C9 {T : Type} (cp : Checkpoint T) (b c : AgentState T)
    (h : load_agent_checkpoint cp b = some c) :
    (c.target_q_net1 = b.target_q_net1 ∧ c.target_q_net2 = b.target_q_net2
      ∧ c.cvae_net = b.cvae_net ∧ c.cvae_optimizer = b.cvae_optimizer)
    ∧ ∀ (a : AgentState T) (t1 t2 cv cvo : T),
        store_agent_checkpoint { a with
          target_q_net1 := t1
          target_q_net2 := t2
          cvae_net := cv
          cvae_optimizer := cvo }
          = store_agent_checkpoint a := by
  constructor
  · unfold load_agent_checkpoint at h
    by_cases hb : b.auto_alpha_tuning = true
    · rw [if_pos hb] at h
      cases hl : cp.log_alpha with
      | none =>
        rw [hl] at h
        simp at h
      | some la =>
        cases ha : cp.alpha_optimizer with
        | none =>
          rw [hl, ha] at h
          simp at h
        | some ao =>
          rw [hl, ha] at h
          obtain rfl := Option.some.inj h
          exact ⟨rfl, rfl, rfl, rfl⟩
    · rw [if_neg hb] at h
      obtain rfl := Option.some.inj h
      exact ⟨rfl, rfl, rfl, rfl⟩
  · intro a t1 t2 cv cvo
    rfl

/-- Concrete agents for the C9 witness: `agent1` is the resuming agent,
`agent2` the agent whose state was saved, `agent3` the result of loading
`agent2`'s checkpoint into `agent1`. -/
def agent1 : AgentState ℕ :=
  ⟨1, 2, 3, 4, 5, 6, 7, 8, 9, 10, false, none, none, 11, 12, 13⟩

def agent2 : AgentState ℕ :=
  ⟨21, 22, 23, 24, 25, 26, 27, 28, 29, 30, false, none, none, 31, 32, 33⟩

def agent3 : AgentState ℕ :=
  ⟨21, 22, 23, 4, 5, 6, 27, 28, 29, 10, false, none, none, 31, 32, 33⟩

/-- C9 witness: loading `agent2`'s checkpoint into `agent1` keeps `agent1`'s
target critics, CVAE and CVAE optimizer. -/
theorem bear_C9_witness :
    agent3.target_q_net1 = agent1.target_q_net1
    ∧ agent3.target_q_net2 = agent1.target_q_net2
    ∧ agent3.cvae_net = agent1.cvae_net
    ∧ agent3.cvae_optimizer = agent1.cvae_optimizer :=
  (bear_C9 (store_agent_checkpoint agent2) agent1 agent3
    (by simp [load_agent_checkpoint, store_agent_checkpoint,
      agent1, agent2, agent3])).1

/-! ## Action selection (`BEAR_Agent.choose_action`) -/

theorem getD_map {α β : Type} (f : α → β) (l : List α) (i : ℕ) (d : α)
    (dg : β) (h : i < l.length) : (l.map f).getD i dg = f (l.getD i d) := by
  induction l generalizing i with
  | nil => cases h
  | cons a t ih =>
    cases i with
    | zero => simp
    | succ i => simpa using ih i (Nat.lt_of_succ_lt_succ h)

/-- `q1.argmax(dim=0)` over a flat list of scores: the index of the first
maximal element. -/
noncomputable def idxOfMax : List ℝ → ℕ
  | [] => 0
  | [_] => 0
  | x :: y :: ys => if listMax (y :: ys) ≤ x then 0 else idxOfMax (y :: ys) + 1

theorem idxOfMax_lt_length (l : List ℝ) (h : l ≠ []) : idxOfMax l < l.length := by
  induction l with
  | nil => exact absurd rfl h
  | cons a t ih =>
    cases t with
    | nil => simp [idxOfMax]
    | cons b u =>
      by_cases hc : listMax (b :: u) ≤ a
      · simp [idxOfMax, hc]
      · have hlt := ih (by simp)
        simp only [List.length_cons] at hlt
        simp only [idxOfMax, if_neg hc, List.length_cons]
        omega

theorem getD_idxOfMax (l : List ℝ) (d : ℝ) (h : l ≠ []) :
    l.getD (idxOfMax l) d = listMax l := by
  induction l with
  | nil => exact absurd rfl h
  | cons a t ih =>
    cases t with
    | nil => simp [idxOfMax, listMax]
    | cons b u =>
      by_cases hc : listMax (b :: u) ≤ a
      · have hmax : listMax (a :: b :: u) = a := by
          rw [show listMax (a :: b :: u) = max a (listMax (b :: u)) from rfl]
          exact max_eq_left hc
        simp [idxOfMax, hc, hmax]
      · have hih := ih (by simp)
        have hmax : listMax (a :: b :: u) = listMax (b :: u) := by
          rw [show listMax (a :: b :: u) = max a (listMax (b :: u)) from rfl]
          exact max_eq_right (le_of_not_le hc)
        simp only [idxOfMax, if_neg hc, List.getD_cons_succ, hmax]
        exact hih

/-- `BEAR_Agent.choose_action`: the observation is repeated
`n_action_samples` times, the stochastic policy draws one candidate per copy
(draw `i` is `policy obs i`), the first critic `q1` scores each candidate
against the observation, and the candidate with the (first) highest score is
returned; the `eval` flag of the source is accepted and never read. -/
noncomputable def choose_action {O A : Type} (policy : O → ℕ → A)
    (q1 : O → A → ℝ) (n_action_samples : ℕ) (obs : O) (_eval : Bool) : A :=
  let acts := (List.range n_action_samples).map fun i => policy obs i
  let qs := acts.map fun a => q1 obs a
  acts.getD (idxOfMax qs) (policy obs 0)

/-- C10: `choose_action` performs the identical computation whatever the
value of its `eval` flag — the flag is ignored — and, for a positive sample
count, the returned action is one of the `n_action_samples` policy draws and
attains the highest first-critic score among all the draws. -/
theorem bear_C10 {O A : Type} (policy : O → ℕ → A) (q1 : O → A → ℝ)
    (nas : ℕ) (obs : O) (e1 e2 : Bool) :
    choose_action policy q1 nas obs e1 = choose_action policy q1 nas obs e2
    ∧ (0 < nas → ∃ i, i < nas
        ∧ choose_action policy q1 nas obs e1 = policy obs i
        ∧ ∀ j, j < nas →
          q1 obs (policy obs j) ≤ q1 obs (choose_action policy q1 nas obs e1)) := by
  constructor
  · rfl
  · intro hpos
    set acts := (List.range nas).map (fun i => policy obs i) with hactsd
    set qs := acts.map (fun a => q1 obs a) with hqsd
    have hlacts : acts.length = nas := by
      rw [hactsd]
      simp
    have hlqs : qs.length = nas := by
      rw [hqsd]
      simp [hlacts]
    have hne : qs ≠ [] := by
      intro hq
      rw [hq] at hlqs
      simp at hlqs
      omega
    have hidx : idxOfMax qs < nas := by
      have := idxOfMax_lt_length qs hne
      omega
    have hactgen : ∀ i, i < nas →
        acts.getD i (policy obs 0) = policy obs i := by
      intro i hi
      rw [hactsd]
      exact getD_range_map _ _ _ _ hi
    have hqgen : ∀ i, i < nas → qs.getD i 0 = q1 obs (policy obs i) := by
      intro i hi
      rw [hqsd, getD_map (fun a => q1 obs a) acts i (policy obs 0) 0 (by omega),
        hactgen i hi]
    have hchoose : q1 obs (choose_action policy q1 nas obs e1) = listMax qs := by
      show q1 obs (acts.getD (idxOfMax qs) (policy obs 0)) = listMax qs
      rw [hactgen (idxOfMax qs) hidx, ← hqgen (idxOfMax qs) hidx]
      exact getD_idxOfMax qs 0 hne
    refine ⟨idxOfMax qs, hidx, ?_, ?_⟩
    · show acts.getD (idxOfMax qs) (policy obs 0) = policy obs (idxOfMax qs)
      exact hactgen (idxOfMax qs) hidx
    · intro j hj
      rw [hchoose]
      have hmem : q1 obs (policy obs j) ∈ qs := by
        rw [hqsd, hactsd, List.map_map]
        exact List.mem_map.mpr ⟨j, List.mem_range.mpr hj, rfl⟩
      exact le_listMax hmem

/-- C10 witness: two candidate draws `0, 1` with the identity critic; the
flag values `true` and `false` give the same result, which attains the
maximal score. -/
theorem bear_C10_witness :
    choose_action (fun (_ : ℝ) (i : ℕ) => (i : ℝ)) (fun (_ : ℝ) (a : ℝ) => a)
        2 0 true
      = choose_action (fun (_ : ℝ) (i : ℕ) => (i : ℝ)) (fun (_ : ℝ) (a : ℝ) => a)
        2 0 false
    ∧ (∃ i : ℕ, i < 2
        ∧ choose_action (fun (_ : ℝ) (i : ℕ) => (i : ℝ)) (fun (_ : ℝ) (a : ℝ) => a)
            2 0 true = (i : ℝ)
        ∧ ∀ j : ℕ, j < 2 → ((j : ℕ) : ℝ)
            ≤ choose_action (fun (_ : ℝ) (i : ℕ) => (i : ℝ))
                (fun (_ : ℝ) (a : ℝ) => a) 2 0 true) :=
  ⟨(bear_C10 (fun (_ : ℝ) (i : ℕ) => (i : ℝ)) (fun (_ : ℝ) (a : ℝ) => a)
      2 0 true false).1,
   (bear_C10 (fun (_ : ℝ) (i : ℕ) => (i : ℝ)) (fun (_ : ℝ) (a : ℝ) => a)
      2 0 true false).2 (by norm_num)⟩
